import Mathlib

/-!
Verification of the Role Reconciliation Engine of OriannaBot.

The repository ships the frontend server-configuration component
(`src/frontend/src/components/server/server.ts`) and the backend entry point
(`src/backend/src/index.ts`).  The reconciliation engine itself (condition
evaluation, role diffing, refresh coordination) is described by the design
specification; where its code is not in the repository snapshot, the
definitions below are modelled from the specification and say so in their
doc comments.  Everything taken from the two shipped source files mirrors
those files directly.
-/

namespace Orianna

/-- A member activity profile: a snapshot mapping a subject identifier to a
numeric value, fetched fresh per reconciliation pass (spec section 3,
MemberProfile). -/
abbrev Profile := List (String × Int)

/-- Look up the observed value for a subject; a subject with no observed
activity yields none. -/
def Profile.lookup (p : Profile) (subject : String) : Option Int :=
  (List.find? (fun q => q.1 == subject) p).map (fun q => q.2)

/-- Typed options carried by a leaf predicate, e.g. the subject and numeric
threshold of an activity-threshold condition (spec section 3,
ConditionNode). -/
structure LeafOptions where
  subject : String
  threshold : Int
deriving DecidableEq, Repr

/-- The static registry mapping a leaf type discriminator to its predicate
function (spec section 4.1: leaf evaluation dispatches on the type
discriminator to a registered predicate). -/
abbrev Registry := List (String × (LeafOptions → Profile → Bool))

/-- Look up the predicate registered for a type discriminator. -/
def lookupPredicate (reg : Registry) (ty : String) :
    Option (LeafOptions → Profile → Bool) :=
  (List.find? (fun q => q.1 == ty) reg).map (fun q => q.2)

/-- Modelled from the spec: a condition tree node is a tagged variant, either
a leaf predicate (type discriminator plus typed options) or a combinator
(AND, OR, NOT over child nodes).  The evaluator's code is not in the
repository snapshot. -/
inductive ConditionNode where
  | leaf (ty : String) (options : LeafOptions)
  | and (children : List ConditionNode)
  | or (children : List ConditionNode)
  | not (child : ConditionNode)
deriving Repr

/-- A configuration error: an unregistered leaf type discriminator (spec
section 7 taxonomy, ConfigError). -/
inductive ConfigError where
  | unregistered (ty : String)
deriving DecidableEq, Repr

mutual

/-- Modelled from the spec: condition-tree evaluation (spec section 4.1).
Leaves dispatch on the discriminator; an unregistered discriminator is a
ConfigError that fails the whole tree evaluation, never silently false.
AND is true iff all children are true, OR iff any child is true, NOT negates
its single child; an error in any child fails the combinator. -/
def evaluate (reg : Registry) (p : Profile) :
    ConditionNode → Except ConfigError Bool
  | ConditionNode.leaf ty options =>
    match lookupPredicate reg ty with
    | some pred => Except.ok (pred options p)
    | none => Except.error (ConfigError.unregistered ty)
  | ConditionNode.and cs => do
    let bs ← evaluateList reg p cs
    pure (bs.all id)
  | ConditionNode.or cs => do
    let bs ← evaluateList reg p cs
    pure (bs.any id)
  | ConditionNode.not c => do
    let b ← evaluate reg p c
    pure (!b)

/-- Evaluate a list of child nodes left to right, failing on the first
configuration error. -/
def evaluateList (reg : Registry) (p : Profile) :
    List ConditionNode → Except ConfigError (List Bool)
  | [] => Except.ok []
  | c :: cs => do
    let b ← evaluate reg p c
    let bs ← evaluateList reg p cs
    pure (b :: bs)

end

mutual

/-- True when the tree contains a leaf whose type discriminator is not
registered. -/
def hasUnregistered (reg : Registry) : ConditionNode → Bool
  | ConditionNode.leaf ty _ => (lookupPredicate reg ty).isNone
  | ConditionNode.and cs => hasUnregisteredList reg cs
  | ConditionNode.or cs => hasUnregisteredList reg cs
  | ConditionNode.not c => hasUnregistered reg c

/-- True when some tree in the list contains an unregistered leaf. -/
def hasUnregisteredList (reg : Registry) : List ConditionNode → Bool
  | [] => false
  | c :: cs => hasUnregistered reg c || hasUnregisteredList reg cs

end

/-- The registered activity-threshold predicate of the spec's scenarios:
true iff the profile holds a value for the subject at or above the
threshold; a missing subject evaluates to false, not an error. -/
def activityThreshold (options : LeafOptions) (p : Profile) : Bool :=
  match p.lookup options.subject with
  | some v => decide (options.threshold ≤ v)
  | none => false

/-- The default registry containing the activity-threshold predicate. -/
def defaultRegistry : Registry := [("activity-threshold", activityThreshold)]

/-- A Role record (src/frontend/src/components/server/server.ts, interface
Role): identifier, display name, external group-marker identifier
(snowflake), announce flag.  The `conditions` field holds the condition
tree; the engine-side tree shape is modelled from the spec (section 3,
Role owns a ConditionTree root node). -/
structure Role where
  id : Nat
  name : String
  snowflake : String
  announce : Bool
  conditions : ConditionNode

/-- A Discord channel as listed in ServerDetails.discord.channels
(src/frontend/src/components/server/server.ts). -/
structure Channel where
  id : String
  name : String
deriving DecidableEq, Repr

/-- Server state (src/frontend/src/components/server/server.ts, interface
ServerDetails), restricted to the fields the verified operations read and
write.  `channels` is ServerDetails.discord.channels. -/
structure ServerDetails where
  snowflake : String
  name : String
  announcement_channel : Option String
  default_champion : Option Nat
  roles : List Role
  blacklisted_channels : List String
  channels : List Channel

/-- The marker identifiers managed by the space's configured roles (spec
section 4.2: markers belonging to a configured Role). -/
def managedMarkers (s : ServerDetails) : Finset String :=
  (s.roles.map (fun r => r.snowflake)).toFinset

/-- Result of diffing desired against current markers (spec section 4.2). -/
structure MarkerDiff where
  toAdd : Finset String
  toRemove : Finset String
deriving DecidableEq

/-- Modelled from the spec: RoleDiffer.diff (spec section 4.2) — toAdd is
desired minus current, toRemove is current intersected with the markers
managed by this space's roles, minus desired.  The differ's code is not in
the repository snapshot. -/
def diff (desired current managed : Finset String) : MarkerDiff :=
  { toAdd := desired \ current
    toRemove := (current ∩ managed) \ desired }

/-- Apply a diff to a current marker set: remove toRemove, add toAdd. -/
def applyDiff (current : Finset String) (d : MarkerDiff) : Finset String :=
  (current \ d.toRemove) ∪ d.toAdd

/-- Modelled from the spec: RoleDiffer.computeDesired (spec section 4.2) —
the desired set is the union of marker identifiers of roles whose tree
evaluates true; a role whose tree fails with a ConfigError is excluded
from the desired set for this pass and the error is recorded.  Returns the
desired marker set together with the recorded per-role errors. -/
def computeDesired (reg : Registry) (s : ServerDetails) (p : Profile) :
    Finset String × List (Nat × ConfigError) :=
  ( ((s.roles.filter
        (fun r => match evaluate reg p r.conditions with
          | Except.ok true => true
          | _ => false)).map
        (fun r => r.snowflake)).toFinset,
    s.roles.filterMap (fun r =>
      match evaluate reg p r.conditions with
      | Except.error e => some (r.id, e)
      | Except.ok _ => none) )

/-- Modelled from the spec: the diff-and-apply core of
Reconciler.reconcileMember (spec section 4.3): compute desired from the
fetched profile, diff against the current marker snapshot, apply the
mutations.  Returns the diff issued (its members are the addMarker and
removeMarker calls) and the marker set after applying it. -/
def reconcileMember (reg : Registry) (s : ServerDetails) (p : Profile)
    (current : Finset String) : MarkerDiff × Finset String :=
  let d := diff (computeDesired reg s p).1 current (managedMarkers s)
  (d, applyDiff current d)

mutual

/-- Modelled from the spec: big-step evaluation relation for condition
trees, one rule per clause of spec section 4.1.  It relates a tree and a
profile to the outcome of one evaluation; the determinism theorem below
shows two evaluations of the same pair agree. -/
inductive EvalR (reg : Registry) (p : Profile) :
    ConditionNode → Except ConfigError Bool → Prop where
  | leafOk (ty : String) (options : LeafOptions)
      (pred : LeafOptions → Profile → Bool)
      (hreg : lookupPredicate reg ty = some pred) :
      EvalR reg p (ConditionNode.leaf ty options) (Except.ok (pred options p))
  | leafErr (ty : String) (options : LeafOptions)
      (hreg : lookupPredicate reg ty = none) :
      EvalR reg p (ConditionNode.leaf ty options)
        (Except.error (ConfigError.unregistered ty))
  | andOk (cs : List ConditionNode) (bs : List Bool)
      (h : EvalListR reg p cs (Except.ok bs)) :
      EvalR reg p (ConditionNode.and cs) (Except.ok (bs.all id))
  | andErr (cs : List ConditionNode) (e : ConfigError)
      (h : EvalListR reg p cs (Except.error e)) :
      EvalR reg p (ConditionNode.and cs) (Except.error e)
  | orOk (cs : List ConditionNode) (bs : List Bool)
      (h : EvalListR reg p cs (Except.ok bs)) :
      EvalR reg p (ConditionNode.or cs) (Except.ok (bs.any id))
  | orErr (cs : List ConditionNode) (e : ConfigError)
      (h : EvalListR reg p cs (Except.error e)) :
      EvalR reg p (ConditionNode.or cs) (Except.error e)
  | notOk (c : ConditionNode) (b : Bool) (h : EvalR reg p c (Except.ok b)) :
      EvalR reg p (ConditionNode.not c) (Except.ok (!b))
  | notErr (c : ConditionNode) (e : ConfigError)
      (h : EvalR reg p c (Except.error e)) :
      EvalR reg p (ConditionNode.not c) (Except.error e)

/-- Evaluation relation for a list of child nodes, left to right, failing at
the first erroring child. -/
inductive EvalListR (reg : Registry) (p : Profile) :
    List ConditionNode → Except ConfigError (List Bool) → Prop where
  | nil : EvalListR reg p [] (Except.ok [])
  | consOk (c : ConditionNode) (cs : List ConditionNode) (b : Bool)
      (bs : List Bool) (hc : EvalR reg p c (Except.ok b))
      (hcs : EvalListR reg p cs (Except.ok bs)) :
      EvalListR reg p (c :: cs) (Except.ok (b :: bs))
  | consErrHead (c : ConditionNode) (cs : List ConditionNode) (e : ConfigError)
      (hc : EvalR reg p c (Except.error e)) :
      EvalListR reg p (c :: cs) (Except.error e)
  | consErrTail (c : ConditionNode) (cs : List ConditionNode) (b : Bool)
      (e : ConfigError) (hc : EvalR reg p c (Except.ok b))
      (hcs : EvalListR reg p cs (Except.error e)) :
      EvalListR reg p (c :: cs) (Except.error e)

end

/-- Modelled from the spec: the per-space run state of the
RefreshCoordinator (spec sections 4.4 and 9): the number of reconciliation
passes in flight for the space together with the pending coalesced-trigger
flag.  The coordinator's code is not in the repository snapshot. -/
structure CoordState where
  inFlight : Nat
  pending : Bool
deriving DecidableEq, Repr

/-- The idle coordinator state: nothing in flight, no pending trigger. -/
def CoordState.idle : CoordState := { inFlight := 0, pending := false }

/-- Events handled by the RefreshCoordinator for one space: a trigger
(manual command, scheduled timer, or configuration-change event) or the
completion of the in-flight pass. -/
inductive CoordEvent where
  | trigger
  | complete
deriving DecidableEq, Repr

/-- Modelled from the spec: one RefreshCoordinator transition (spec section
4.4).  A trigger while idle starts a pass; a trigger while running only
records the pending flag; on completion, a pending trigger starts exactly
one follow-up pass, otherwise the space returns to idle.  Returns the new
state and the number of passes started by this transition. -/
def coordStep (s : CoordState) : CoordEvent → CoordState × Nat
  | CoordEvent.trigger =>
    if s.inFlight = 0 then ({ inFlight := 1, pending := false }, 1)
    else ({ s with pending := true }, 0)
  | CoordEvent.complete =>
    if s.pending then ({ inFlight := s.inFlight - 1 + 1, pending := false }, 1)
    else ({ s with inFlight := s.inFlight - 1 }, 0)

/-- Run the coordinator over a list of events, counting passes started. -/
def coordRun (s : CoordState) : List CoordEvent → CoordState × Nat
  | [] => (s, 0)
  | e :: es =>
    let step := coordStep s e
    let rest := coordRun step.1 es
    (rest.1, step.2 + rest.2)

/-- The event trace of n triggers arriving while a pass runs, followed by
the completion of that pass. -/
def coalescedTrace (n : Nat) : List CoordEvent :=
  List.replicate n CoordEvent.trigger ++ [CoordEvent.complete]

/-- Removes the role with the given identifier from the server's role list
(src/frontend/src/components/server/server.ts, deleteRole: the role is
spliced out of server.roles after the DELETE request).  The engine-side
effect is modelled from the spec (sections 3 and 6): deletion triggers a
configuration-change event for the space and schedules revocation of the
deleted role's marker from all current holders in the next pass.  Returns
the updated server, the scheduled revocation markers, and the emitted
coordinator event. -/
def deleteRole (s : ServerDetails) (rid : Nat) :
    ServerDetails × Finset String × CoordEvent :=
  ( { s with roles := s.roles.filter (fun r => r.id ≠ rid) },
    ((s.roles.filter (fun r => r.id = rid)).map (fun r => r.snowflake)).toFinset,
    CoordEvent.trigger )

/-- Modelled from the spec: the set of markers a reconciliation pass removes
from a member, given the revocations scheduled by role deletions since the
last pass (spec section 6: deleting a Role schedules revocation of its
marker from all current holders in the next pass) on top of the ordinary
diff of spec section 4.2. -/
def passRemoveSet (reg : Registry) (s : ServerDetails) (scheduled : Finset String)
    (p : Profile) (current : Finset String) : Finset String :=
  (diff (computeDesired reg s p).1 current (managedMarkers s)).toRemove ∪
    (scheduled ∩ current)

/-- Process-wide state observed by the last-resort error handler: the log
and whether the process has crashed. -/
structure ProcessState where
  log : List String
  crashed : Bool
deriving DecidableEq, Repr

/-- The process-wide last-resort handler (src/backend/src/index.ts,
process.on unhandledRejection): it only logs the error and continues; it
never terminates the process. -/
def onUnhandledRejection (s : ProcessState) (errMsg : String) : ProcessState :=
  { s with log := s.log ++ [errMsg] }

/-- Modelled from the spec: one member's reconciliation pipeline with its
member-task boundary (spec sections 4.3 and 7): the profile fetch may fail,
and any error is caught at the boundary and recorded as this member's
outcome instead of propagating. -/
def reconcileMemberCaught (reg : Registry) (s : ServerDetails)
    (fetch : String → Except String Profile)
    (current : String → Finset String) (m : String) :
    Except String MarkerDiff :=
  match fetch m with
  | Except.error e => Except.error e
  | Except.ok p => Except.ok (reconcileMember reg s p (current m)).1

/-- Modelled from the spec: the per-space pass report (spec section 4.3):
one recorded outcome per member, each member's pipeline fully isolated. -/
def reconcileSpaceReport (reg : Registry) (s : ServerDetails)
    (fetch : String → Except String Profile)
    (current : String → Finset String) (members : List String) :
    List (String × Except String MarkerDiff) :=
  members.map (fun m => (m, reconcileMemberCaught reg s fetch current m))

/-- JavaScript Array.prototype.indexOf on a list of strings: the index of
the first occurrence, or -1 when the element is absent
(src/frontend/src/components/server/server.ts uses it in removeBlacklist). -/
def jsIndexOf (xs : List String) (x : String) : Int :=
  match xs.findIdx? (fun y => y == x) with
  | some i => (i : Int)
  | none => -1

/-- JavaScript Array.prototype.splice restricted to deletion: a negative
start is taken from the end and clamped at zero, a start past the end is
clamped to the length, and deleteCount elements from that position are
removed.  Returns the remaining list. -/
def jsSplice {α : Type} (xs : List α) (start : Int) (deleteCount : Nat) :
    List α :=
  let actualStart : Nat :=
    if start < 0 then ((xs.length : Int) + start).toNat
    else min start.toNat xs.length
  xs.take actualStart ++ xs.drop (actualStart + deleteCount)

/-- Removes the given channel id from the blacklist
(src/frontend/src/components/server/server.ts, removeBlacklist): the local
state update is blacklisted_channels.splice(blacklisted_channels.indexOf(id), 1). -/
def removeBlacklist (s : ServerDetails) (id : String) : ServerDetails :=
  { s with blacklisted_channels :=
      jsSplice s.blacklisted_channels (jsIndexOf s.blacklisted_channels id) 1 }

/-- Finds the channel name for the given id
(src/frontend/src/components/server/server.ts, getChannelName):
server.discord.channels.find on the id followed by a non-null-asserted
.name access; the failing access when no channel matches is modelled as
none. -/
def getChannelName (s : ServerDetails) (id : String) : Option String :=
  (s.channels.find? (fun c => c.id == id)).map (fun c => c.name)

/-- A sample condition tree: the Veteran rule of spec scenario 1. -/
def sampleTree : ConditionNode :=
  ConditionNode.leaf "activity-threshold" { subject := "logins", threshold := 100 }

/-- A sample condition tree with an unregistered type discriminator. -/
def bogusTree : ConditionNode :=
  ConditionNode.leaf "bogus" { subject := "logins", threshold := 100 }

/-- A sample role whose tree is registered and satisfied by sampleProfile. -/
def sampleRoleA : Role :=
  { id := 1, name := "Veteran", snowflake := "mA", announce := true,
    conditions := sampleTree }

/-- A sample role whose tree has an unregistered discriminator. -/
def sampleRoleB : Role :=
  { id := 2, name := "Broken", snowflake := "mB", announce := false,
    conditions := bogusTree }

/-- A sample server holding both sample roles, two blacklisted channels and
one Discord channel. -/
def sampleServer : ServerDetails :=
  { snowflake := "s1", name := "Test", announcement_channel := none,
    default_champion := none, roles := [sampleRoleA, sampleRoleB],
    blacklisted_channels := ["a", "b"],
    channels := [{ id := "c1", name := "general" }] }

/-- A sample profile with 150 observed logins. -/
def sampleProfile : Profile := [("logins", 150)]

/-- A sample profile fetcher whose call for alice fails while every other
member's fetch succeeds. -/
def sampleFetch : String → Except String Profile := fun m =>
  if m = "alice" then Except.error "boom" else Except.ok sampleProfile

/-! Helper lemmas about the differ and the desired-set computation. -/

/-- Every desired marker belongs to a configured role, hence is managed. -/
theorem computeDesired_subset_managed (reg : Registry) (s : ServerDetails)
    (p : Profile) : (computeDesired reg s p).1 ⊆ managedMarkers s := by
  intro a ha
  simp only [computeDesired, List.mem_toFinset, List.mem_map,
    List.mem_filter] at ha
  obtain ⟨r, ⟨hr, _⟩, hsnow⟩ := ha
  simp only [managedMarkers, List.mem_toFinset, List.mem_map]
  exact ⟨r, hr, hsnow⟩

/-- Membership in the desired set is exactly having a configured role whose
tree evaluates true with that marker. -/
theorem mem_computeDesired (reg : Registry) (s : ServerDetails) (p : Profile)
    (m : String) :
    m ∈ (computeDesired reg s p).1 ↔
      ∃ r, r ∈ s.roles ∧ r.snowflake = m ∧
        evaluate reg p r.conditions = Except.ok true := by
  simp only [computeDesired, List.mem_toFinset, List.mem_map, List.mem_filter]
  constructor
  · rintro ⟨r, ⟨hr, hflag⟩, hsnow⟩
    refine ⟨r, hr, hsnow, ?_⟩
    rcases hres : evaluate reg p r.conditions with e | b
    · rw [hres] at hflag
      simp at hflag
    · rw [hres] at hflag
      cases b
      · simp at hflag
      · rfl
  · rintro ⟨r, hr, hsnow, hres⟩
    exact ⟨r, ⟨hr, by rw [hres]⟩, hsnow⟩

/-- A role whose tree evaluation fails is recorded in the error list. -/
theorem computeDesired_records_error (reg : Registry) (s : ServerDetails)
    (p : Profile) (r : Role) (e : ConfigError) (hr : r ∈ s.roles)
    (he : evaluate reg p r.conditions = Except.error e) :
    (r.id, e) ∈ (computeDesired reg s p).2 := by
  simp only [computeDesired, List.mem_filterMap]
  exact ⟨r, hr, by rw [he]⟩

/-! Claim theorems. -/

/-- C2: for all desired and current marker sets, diff returns toAdd equal to
desired minus current and toRemove equal to current intersected with the
managed markers minus desired; consequently toAdd and toRemove are
disjoint, toAdd is disjoint from current, and toRemove is a subset of
current. -/
theorem diff_is_set_difference (desired current managed : Finset String) :
    (diff desired current managed).toAdd = desired \ current ∧
    (diff desired current managed).toRemove = (current ∩ managed) \ desired ∧
    Disjoint (diff desired current managed).toAdd
      (diff desired current managed).toRemove ∧
    Disjoint (diff desired current managed).toAdd current ∧
    (diff desired current managed).toRemove ⊆ current := by
  refine ⟨rfl, rfl, ?_, ?_, ?_⟩
  · rw [Finset.disjoint_left]
    intro a ha hb
    simp only [diff, Finset.mem_sdiff, Finset.mem_inter] at ha hb
    exact hb.2 ha.1
  · rw [Finset.disjoint_left]
    intro a ha hb
    simp only [diff, Finset.mem_sdiff] at ha
    exact ha.2 hb
  · intro a ha
    simp only [diff, Finset.mem_sdiff, Finset.mem_inter] at ha
    exact ha.1.1

/-- C3: a marker that belongs to no configured role of the space never
appears in the toRemove half of a reconciliation diff, and applying the
pass's diff leaves the member's possession of that marker unchanged. -/
theorem unmanaged_marker_untouched (reg : Registry) (s : ServerDetails)
    (p : Profile) (current : Finset String) (m : String)
    (h : m ∉ managedMarkers s) :
    m ∉ ((reconcileMember reg s p current).1).toRemove ∧
    (m ∈ (reconcileMember reg s p current).2 ↔ m ∈ current) := by
  have hsub := computeDesired_subset_managed reg s p
  constructor
  · intro hmem
    simp only [reconcileMember, diff, Finset.mem_sdiff, Finset.mem_inter]
      at hmem
    exact h hmem.1.2
  · simp only [reconcileMember, applyDiff, diff, Finset.mem_union,
      Finset.mem_sdiff, Finset.mem_inter]
    constructor
    · rintro (⟨hc, _⟩ | ⟨hd, _⟩)
      · exact hc
      · exact absurd (hsub hd) h
    · intro hc
      left
      refine ⟨hc, ?_⟩
      rintro ⟨⟨_, hman⟩, _⟩
      exact h hman

/-- C3 witness: the sample server manages mA and mB only, so the foreign
marker mX is never removed and is kept across the pass. -/
theorem unmanaged_marker_untouched_witness :
    "mX" ∉ ((reconcileMember defaultRegistry sampleServer sampleProfile
      {"mX"}).1).toRemove ∧
    ("mX" ∈ (reconcileMember defaultRegistry sampleServer sampleProfile
      {"mX"}).2 ↔ "mX" ∈ ({"mX"} : Finset String)) :=
  unmanaged_marker_untouched defaultRegistry sampleServer sampleProfile
    {"mX"} "mX" (by decide)

/-- C5: reconciling a member twice with the same profile and configuration
yields an empty diff on the second call, so the second call issues no
addMarker or removeMarker mutations. -/
theorem reconcileMember_idempotent (reg : Registry) (s : ServerDetails)
    (p : Profile) (current : Finset String) :
    (reconcileMember reg s p (reconcileMember reg s p current).2).1 =
      { toAdd := ∅, toRemove := ∅ } := by
  simp only [reconcileMember, applyDiff, diff, MarkerDiff.mk.injEq]
  constructor
  · rw [Finset.eq_empty_iff_forall_not_mem]
    intro a ha
    simp only [Finset.mem_sdiff, Finset.mem_union, Finset.mem_inter] at ha
    tauto
  · rw [Finset.eq_empty_iff_forall_not_mem]
    intro a ha
    simp only [Finset.mem_sdiff, Finset.mem_union, Finset.mem_inter] at ha
    tauto

/-- indexOf on a list that does not contain the element returns -1. -/
theorem jsIndexOf_eq_neg_one (xs : List String) (x : String) (h : x ∉ xs) :
    jsIndexOf xs x = -1 := by
  have hnone : xs.findIdx? (fun y => y == x) = none := by
    rw [List.findIdx?_eq_none_iff]
    intro y hy
    simp only [beq_eq_false_iff_ne, ne_eq]
    intro he
    exact h (he ▸ hy)
  simp [jsIndexOf, hnone]

/-- splice(-1, 1) drops the last element of the list. -/
theorem jsSplice_neg_one {α : Type} (xs : List α) :
    jsSplice xs (-1) 1 = xs.dropLast := by
  simp only [jsSplice]
  rw [if_pos (by norm_num)]
  have hstart : ((xs.length : Int) + -1).toNat = xs.length - 1 := by omega
  rw [hstart, List.dropLast_eq_take]
  cases xs with
  | nil => simp
  | cons a l =>
    have hlen : (a :: l).length - 1 + 1 = (a :: l).length := by
      simp [List.length_cons]
    rw [hlen, List.drop_length, List.append_nil]

/-- C9: when the blacklist is non-empty and the channel id is not in it,
removeBlacklist deletes the final entry (indexOf returns -1 and
splice(-1, 1) removes the last element) rather than leaving the list
unchanged; the blacklist is left unchanged only when it is already
empty. -/
theorem removeBlacklist_absent_removes_last (s : ServerDetails) (id : String)
    (h1 : s.blacklisted_channels ≠ []) (h2 : id ∉ s.blacklisted_channels) :
    (removeBlacklist s id).blacklisted_channels =
      s.blacklisted_channels.dropLast ∧
    (removeBlacklist s id).blacklisted_channels ≠ s.blacklisted_channels ∧
    ∀ t : ServerDetails, t.blacklisted_channels = [] →
      (removeBlacklist t id).blacklisted_channels =
        t.blacklisted_channels := by
  have hidx := jsIndexOf_eq_neg_one _ _ h2
  have hdrop : (removeBlacklist s id).blacklisted_channels =
      s.blacklisted_channels.dropLast := by
    simp only [removeBlacklist, hidx]
    exact jsSplice_neg_one _
  refine ⟨hdrop, ?_, ?_⟩
  · rw [hdrop]
    intro heq
    have hlen : 1 ≤ s.blacklisted_channels.length := by
      cases hbc : s.blacklisted_channels with
      | nil => exact absurd hbc h1
      | cons a l => simp [hbc]
    have hlens := congrArg List.length heq
    rw [List.length_dropLast] at hlens
    omega
  · intro t ht
    simp [removeBlacklist, ht, jsIndexOf, jsSplice]

/-- C9 witness: removing the absent id zzz from the sample blacklist
[a, b] drops the final entry b. -/
theorem removeBlacklist_absent_removes_last_witness :
    sampleServer.blacklisted_channels ≠ [] ∧
    "zzz" ∉ sampleServer.blacklisted_channels ∧
    ((removeBlacklist sampleServer "zzz").blacklisted_channels =
        sampleServer.blacklisted_channels.dropLast ∧
      (removeBlacklist sampleServer "zzz").blacklisted_channels ≠
        sampleServer.blacklisted_channels ∧
      ∀ t : ServerDetails, t.blacklisted_channels = [] →
        (removeBlacklist t "zzz").blacklisted_channels =
          t.blacklisted_channels) :=
  ⟨by decide, by decide,
    removeBlacklist_absent_removes_last sampleServer "zzz" (by decide)
      (by decide)⟩

/-- C10: under the precondition that some listed channel has the requested
id, getChannelName returns the name of the first such channel; with no
matching channel the underlying find returns nothing and the
non-null-asserted name access has no value, modelled as none. -/
theorem getChannelName_finds (s : ServerDetails) (id : String)
    (h : ∃ c, c ∈ s.channels ∧ c.id = id) :
    (∃ c, c ∈ s.channels ∧ c.id = id ∧
      getChannelName s id = some c.name) ∧
    ∀ t : ServerDetails, (∀ c, c ∈ t.channels → c.id ≠ id) →
      getChannelName t id = none := by
  constructor
  · rcases hfind : s.channels.find? (fun c => c.id == id) with _ | c
    · exfalso
      rw [List.find?_eq_none] at hfind
      obtain ⟨c, hc, hcid⟩ := h
      exact hfind c hc (by simp [hcid])
    · refine ⟨c, List.mem_of_find?_eq_some hfind, ?_, ?_⟩
      · have := List.find?_some hfind
        simpa using this
      · simp [getChannelName, hfind]
  · intro t ht
    have hnone : t.channels.find? (fun c => c.id == id) = none := by
      rw [List.find?_eq_none]
      intro c hc
      simp only [beq_iff_eq]
      exact ht c hc
    simp [getChannelName, hnone]

/-- C10 witness: the sample server lists channel c1 named general, and
getChannelName returns that name. -/
theorem getChannelName_finds_witness :
    (∃ c, c ∈ sampleServer.channels ∧ c.id = "c1") ∧
    ((∃ c, c ∈ sampleServer.channels ∧ c.id = "c1" ∧
        getChannelName sampleServer "c1" = some c.name) ∧
      ∀ t : ServerDetails, (∀ c, c ∈ t.channels → c.id ≠ "c1") →
        getChannelName t "c1" = none) :=
  ⟨⟨{ id := "c1", name := "general" }, by decide, rfl⟩,
    getChannelName_finds sampleServer "c1"
      ⟨{ id := "c1", name := "general" }, by decide, rfl⟩⟩

/-- One coordinator transition keeps at most one pass in flight. -/
theorem coordStep_inFlight_le_one (s : CoordState) (e : CoordEvent)
    (h : s.inFlight ≤ 1) : ((coordStep s e).1).inFlight ≤ 1 := by
  cases e with
  | trigger =>
    by_cases h0 : s.inFlight = 0 <;> simp [coordStep, h0] <;> omega
  | complete =>
    by_cases hp : s.pending <;> simp [coordStep, hp] <;> omega

/-- Running any event trace keeps at most one pass in flight. -/
theorem coordRun_inFlight_le_one (es : List CoordEvent) (s : CoordState)
    (h : s.inFlight ≤ 1) : ((coordRun s es).1).inFlight ≤ 1 := by
  induction es generalizing s with
  | nil => exact h
  | cons e es ih =>
    simpa [coordRun] using ih (coordStep s e).1 (coordStep_inFlight_le_one s e h)

/-- With a pass running and the coalesced flag already set, further
triggers followed by the completion start exactly one follow-up pass. -/
theorem coordRun_pending_trace (n : Nat) :
    coordRun { inFlight := 1, pending := true }
      (List.replicate n CoordEvent.trigger ++ [CoordEvent.complete]) =
    ({ inFlight := 1, pending := false }, 1) := by
  induction n with
  | zero => simp [coordRun, coordStep]
  | succ n ih =>
    have hstep : coordStep { inFlight := 1, pending := true }
        CoordEvent.trigger = ({ inFlight := 1, pending := true }, 0) := by
      simp [coordStep]
    rw [List.replicate_succ, List.cons_append]
    simp [coordRun, hstep, ih]

/-- C1: with one pass in flight and no pending trigger, any number n of
triggers with 1 le n arriving during the pass are coalesced: no new pass
starts until the completion, completion starts exactly one follow-up pass
(never n, never zero), and along every event trace from this state the
coordinator keeps at most one pass in flight. -/
theorem refreshCoordinator_coalesces (n : Nat) (hn : 1 ≤ n) :
    (coordRun { inFlight := 1, pending := false } (coalescedTrace n)).2 = 1 ∧
    (coordRun { inFlight := 1, pending := false } (coalescedTrace n)).1 =
      { inFlight := 1, pending := false } ∧
    ∀ es : List CoordEvent,
      ((coordRun { inFlight := 1, pending := false } es).1).inFlight ≤ 1 := by
  obtain ⟨m, rfl⟩ : ∃ m, n = m + 1 := ⟨n - 1, by omega⟩
  have hstep : coordStep { inFlight := 1, pending := false }
      CoordEvent.trigger = ({ inFlight := 1, pending := true }, 0) := by
    simp [coordStep]
  have hrun : coordRun { inFlight := 1, pending := false }
      (coalescedTrace (m + 1)) = ({ inFlight := 1, pending := false }, 1) := by
    rw [coalescedTrace, List.replicate_succ, List.cons_append]
    simp [coordRun, hstep, coordRun_pending_trace m]
  refine ⟨by rw [hrun], by rw [hrun], ?_⟩
  intro es
  exact coordRun_inFlight_le_one es _ (by norm_num)

/-- C1 witness: three triggers during a pass cause exactly one follow-up
pass at completion. -/
theorem refreshCoordinator_coalesces_witness :
    1 ≤ 3 ∧
    ((coordRun { inFlight := 1, pending := false } (coalescedTrace 3)).2 = 1 ∧
      (coordRun { inFlight := 1, pending := false } (coalescedTrace 3)).1 =
        { inFlight := 1, pending := false } ∧
      ∀ es : List CoordEvent,
        ((coordRun { inFlight := 1, pending := false } es).1).inFlight ≤ 1) :=
  ⟨by decide, refreshCoordinator_coalesces 3 (by decide)⟩

/-- C8: an error in one member's pipeline is caught at the member-task
boundary and recorded as that member's outcome in the pass report; every
sibling member still gets its own outcome computed from its own fetch, the
report covers all members, and the process-wide last-resort handler only
appends to the log and never crashes the process. -/
theorem member_error_isolated (reg : Registry) (s : ServerDetails)
    (fetch : String → Except String Profile)
    (current : String → Finset String) (members : List String)
    (a b : String) (e : String) (pb : Profile) (ps : ProcessState)
    (msg : String) (haM : a ∈ members) (hbM : b ∈ members)
    (ha : fetch a = Except.error e) (hb : fetch b = Except.ok pb) :
    (a, Except.error e) ∈ reconcileSpaceReport reg s fetch current members ∧
    (b, Except.ok (reconcileMember reg s pb (current b)).1) ∈
      reconcileSpaceReport reg s fetch current members ∧
    (reconcileSpaceReport reg s fetch current members).length =
      members.length ∧
    (onUnhandledRejection ps msg).crashed = ps.crashed ∧
    (onUnhandledRejection ps msg).log = ps.log ++ [msg] := by
  refine ⟨?_, ?_, by simp [reconcileSpaceReport], rfl, rfl⟩
  · have hcaught : reconcileMemberCaught reg s fetch current a =
        Except.error e := by
      simp [reconcileMemberCaught, ha]
    simp only [reconcileSpaceReport, List.mem_map]
    exact ⟨a, haM, by rw [hcaught]⟩
  · have hcaught : reconcileMemberCaught reg s fetch current b =
        Except.ok (reconcileMember reg s pb (current b)).1 := by
      simp [reconcileMemberCaught, hb]
    simp only [reconcileSpaceReport, List.mem_map]
    exact ⟨b, hbM, by rw [hcaught]⟩

/-- C8 witness: with alice's fetch failing and bob's succeeding, the report
for the pair records alice's error, bob's ordinary diff, and the handler
keeps the process alive. -/
theorem member_error_isolated_witness :
    "alice" ∈ ["alice", "bob"] ∧ "bob" ∈ ["alice", "bob"] ∧
    sampleFetch "alice" = Except.error "boom" ∧
    sampleFetch "bob" = Except.ok sampleProfile ∧
    (("alice", (Except.error "boom" : Except String MarkerDiff)) ∈
      reconcileSpaceReport defaultRegistry sampleServer sampleFetch
        (fun _ => ∅) ["alice", "bob"] ∧
    ("bob", Except.ok (reconcileMember defaultRegistry sampleServer
        sampleProfile ((fun _ => (∅ : Finset String)) "bob")).1) ∈
      reconcileSpaceReport defaultRegistry sampleServer sampleFetch
        (fun _ => ∅) ["alice", "bob"] ∧
    (reconcileSpaceReport defaultRegistry sampleServer sampleFetch
        (fun _ => ∅) ["alice", "bob"]).length =
      (["alice", "bob"] : List String).length ∧
    (onUnhandledRejection { log := [], crashed := false } "oops").crashed =
      ({ log := [], crashed := false } : ProcessState).crashed ∧
    (onUnhandledRejection { log := [], crashed := false } "oops").log =
      ({ log := [], crashed := false } : ProcessState).log ++ ["oops"]) :=
  ⟨by decide, by decide, by simp [sampleFetch], by simp [sampleFetch],
    member_error_isolated defaultRegistry sampleServer sampleFetch
      (fun _ => ∅) ["alice", "bob"] "alice" "bob" "boom" sampleProfile
      { log := [], crashed := false } "oops" (by decide) (by decide)
      (by simp [sampleFetch]) (by simp [sampleFetch])⟩

mutual

/-- A tree containing an unregistered leaf discriminator always fails
evaluation with a configuration error. -/
theorem hasUnregistered_error (reg : Registry) (p : Profile) :
    ∀ t : ConditionNode, hasUnregistered reg t = true →
      ∃ e, evaluate reg p t = Except.error e
  | ConditionNode.leaf ty options, h => by
    simp only [hasUnregistered, Option.isNone_iff_eq_none] at h
    exact ⟨ConfigError.unregistered ty, by simp [evaluate, h]⟩
  | ConditionNode.and cs, h => by
    obtain ⟨e, he⟩ := hasUnregisteredList_error reg p cs
      (by simpa [hasUnregistered] using h)
    refine ⟨e, ?_⟩
    simp only [evaluate]
    rw [he]
    rfl
  | ConditionNode.or cs, h => by
    obtain ⟨e, he⟩ := hasUnregisteredList_error reg p cs
      (by simpa [hasUnregistered] using h)
    refine ⟨e, ?_⟩
    simp only [evaluate]
    rw [he]
    rfl
  | ConditionNode.not c, h => by
    obtain ⟨e, he⟩ := hasUnregistered_error reg p c
      (by simpa [hasUnregistered] using h)
    refine ⟨e, ?_⟩
    simp only [evaluate]
    rw [he]
    rfl

/-- A child list containing an unregistered leaf fails list evaluation. -/
theorem hasUnregisteredList_error (reg : Registry) (p : Profile) :
    ∀ cs : List ConditionNode, hasUnregisteredList reg cs = true →
      ∃ e, evaluateList reg p cs = Except.error e
  | [], h => by simp [hasUnregisteredList] at h
  | c :: cs, h => by
    rcases hres : evaluate reg p c with e | b
    · refine ⟨e, ?_⟩
      simp only [evaluateList]
      rw [hres]
      rfl
    · have hc : hasUnregistered reg c = false := by
        by_contra hcc
        rw [Bool.not_eq_false] at hcc
        obtain ⟨e, he⟩ := hasUnregistered_error reg p c hcc
        rw [hres] at he
        exact Except.noConfusion he
      have htail : hasUnregisteredList reg cs = true := by
        simpa [hasUnregisteredList, hc] using h
      obtain ⟨e, he⟩ := hasUnregisteredList_error reg p cs htail
      refine ⟨e, ?_⟩
      simp only [evaluateList]
      rw [hres, he]
      rfl

end

/-- C4: a condition tree with an unregistered leaf discriminator evaluates
to a ConfigError (never silently false), the error is recorded for that
role by computeDesired, and the desired set consists exactly of the markers
of roles whose trees evaluate true, so the erroring role is excluded while
every other true role is included. -/
theorem unregistered_type_excluded (reg : Registry) (s : ServerDetails)
    (p : Profile) (r : Role) (hr : r ∈ s.roles)
    (h : hasUnregistered reg r.conditions = true) :
    (∃ e, evaluate reg p r.conditions = Except.error e) ∧
    (∃ e, (r.id, e) ∈ (computeDesired reg s p).2) ∧
    (∀ m, m ∈ (computeDesired reg s p).1 ↔
      ∃ r', r' ∈ s.roles ∧ r'.snowflake = m ∧
        evaluate reg p r'.conditions = Except.ok true) := by
  obtain ⟨e, he⟩ := hasUnregistered_error reg p r.conditions h
  exact ⟨⟨e, he⟩, ⟨e, computeDesired_records_error reg s p r e hr he⟩,
    fun m => mem_computeDesired reg s p m⟩

/-- C4 witness: the Broken sample role carries the unregistered bogus
discriminator, so its evaluation errors, the error is recorded, and the
desired set is characterised by the remaining true roles. -/
theorem unregistered_type_excluded_witness :
    sampleRoleB ∈ sampleServer.roles ∧
    hasUnregistered defaultRegistry sampleRoleB.conditions = true ∧
    ((∃ e, evaluate defaultRegistry sampleProfile sampleRoleB.conditions =
        Except.error e) ∧
      (∃ e, (sampleRoleB.id, e) ∈
        (computeDesired defaultRegistry sampleServer sampleProfile).2) ∧
      (∀ m, m ∈ (computeDesired defaultRegistry sampleServer
          sampleProfile).1 ↔
        ∃ r', r' ∈ sampleServer.roles ∧ r'.snowflake = m ∧
          evaluate defaultRegistry sampleProfile r'.conditions =
            Except.ok true)) :=
  ⟨List.mem_cons_of_mem _ (List.mem_cons_self _ _),
    by simp [sampleRoleB, bogusTree, hasUnregistered, lookupPredicate,
      defaultRegistry],
    unregistered_type_excluded defaultRegistry sampleServer sampleProfile
      sampleRoleB (List.mem_cons_of_mem _ (List.mem_cons_self _ _))
      (by simp [sampleRoleB, bogusTree, hasUnregistered, lookupPredicate,
        defaultRegistry])⟩

mutual

/-- The evaluation function realises the evaluation relation. -/
theorem evaluate_evalR (reg : Registry) (p : Profile) :
    ∀ t : ConditionNode, EvalR reg p t (evaluate reg p t)
  | ConditionNode.leaf ty options => by
    rcases hreg : lookupPredicate reg ty with _ | pred
    · have hev : evaluate reg p (ConditionNode.leaf ty options) =
          Except.error (ConfigError.unregistered ty) := by
        simp [evaluate, hreg]
      rw [hev]
      exact EvalR.leafErr ty options hreg
    · have hev : evaluate reg p (ConditionNode.leaf ty options) =
          Except.ok (pred options p) := by
        simp [evaluate, hreg]
      rw [hev]
      exact EvalR.leafOk ty options pred hreg
  | ConditionNode.and cs => by
    have hl := evaluateList_evalListR reg p cs
    rcases hres : evaluateList reg p cs with e | bs
    · rw [hres] at hl
      have hev : evaluate reg p (ConditionNode.and cs) = Except.error e := by
        simp only [evaluate]
        rw [hres]
        rfl
      rw [hev]
      exact EvalR.andErr cs e hl
    · rw [hres] at hl
      have hev : evaluate reg p (ConditionNode.and cs) =
          Except.ok (bs.all id) := by
        simp only [evaluate]
        rw [hres]
        rfl
      rw [hev]
      exact EvalR.andOk cs bs hl
  | ConditionNode.or cs => by
    have hl := evaluateList_evalListR reg p cs
    rcases hres : evaluateList reg p cs with e | bs
    · rw [hres] at hl
      have hev : evaluate reg p (ConditionNode.or cs) = Except.error e := by
        simp only [evaluate]
        rw [hres]
        rfl
      rw [hev]
      exact EvalR.orErr cs e hl
    · rw [hres] at hl
      have hev : evaluate reg p (ConditionNode.or cs) =
          Except.ok (bs.any id) := by
        simp only [evaluate]
        rw [hres]
        rfl
      rw [hev]
      exact EvalR.orOk cs bs hl
  | ConditionNode.not c => by
    have hc := evaluate_evalR reg p c
    rcases hres : evaluate reg p c with e | b
    · rw [hres] at hc
      have hev : evaluate reg p (ConditionNode.not c) = Except.error e := by
        simp only [evaluate]
        rw [hres]
        rfl
      rw [hev]
      exact EvalR.notErr c e hc
    · rw [hres] at hc
      have hev : evaluate reg p (ConditionNode.not c) = Except.ok (!b) := by
        simp only [evaluate]
        rw [hres]
        rfl
      rw [hev]
      exact EvalR.notOk c b hc

/-- The list evaluation function realises the list evaluation relation. -/
theorem evaluateList_evalListR (reg : Registry) (p : Profile) :
    ∀ cs : List ConditionNode, EvalListR reg p cs (evaluateList reg p cs)
  | [] => EvalListR.nil
  | c :: cs => by
    have hc := evaluate_evalR reg p c
    rcases hres : evaluate reg p c with e | b
    · rw [hres] at hc
      have hev : evaluateList reg p (c :: cs) = Except.error e := by
        simp only [evaluateList]
        rw [hres]
        rfl
      rw [hev]
      exact EvalListR.consErrHead c cs e hc
    · rw [hres] at hc
      have hcs := evaluateList_evalListR reg p cs
      rcases hres2 : evaluateList reg p cs with e2 | bs
      · rw [hres2] at hcs
        have hev : evaluateList reg p (c :: cs) = Except.error e2 := by
          simp only [evaluateList]
          rw [hres, hres2]
          rfl
        rw [hev]
        exact EvalListR.consErrTail c cs b e2 hc hcs
      · rw [hres2] at hcs
        have hev : evaluateList reg p (c :: cs) = Except.ok (b :: bs) := by
          simp only [evaluateList]
          rw [hres, hres2]
          rfl
        rw [hev]
        exact EvalListR.consOk c cs b bs hc hcs

end

mutual

/-- The evaluation relation is deterministic: two derivations for the same
tree and profile yield the same outcome. -/
theorem evalR_det (reg : Registry) (p : Profile) :
    ∀ (t : ConditionNode) (r₁ r₂ : Except ConfigError Bool),
      EvalR reg p t r₁ → EvalR reg p t r₂ → r₁ = r₂
  | ConditionNode.leaf _ _, _, _, h₁, h₂ => by
    cases h₁ with
    | leafOk _ _ pred₁ hreg₁ =>
      cases h₂ with
      | leafOk _ _ pred₂ hreg₂ =>
        rw [hreg₁] at hreg₂
        injection hreg₂ with hp
        rw [hp]
      | leafErr _ _ hreg₂ =>
        rw [hreg₁] at hreg₂
        exact Option.noConfusion hreg₂
    | leafErr _ _ hreg₁ =>
      cases h₂ with
      | leafOk _ _ pred₂ hreg₂ =>
        rw [hreg₂] at hreg₁
        exact Option.noConfusion hreg₁
      | leafErr _ _ hreg₂ => rfl
  | ConditionNode.and cs, _, _, h₁, h₂ => by
    cases h₁ with
    | andOk _ bs₁ hl₁ =>
      cases h₂ with
      | andOk _ bs₂ hl₂ =>
        have hd := evalListR_det reg p cs _ _ hl₁ hl₂
        injection hd with hb
        rw [hb]
      | andErr _ e₂ hl₂ =>
        exact Except.noConfusion (evalListR_det reg p cs _ _ hl₁ hl₂)
    | andErr _ e₁ hl₁ =>
      cases h₂ with
      | andOk _ bs₂ hl₂ =>
        exact Except.noConfusion (evalListR_det reg p cs _ _ hl₁ hl₂)
      | andErr _ e₂ hl₂ =>
        have hd := evalListR_det reg p cs _ _ hl₁ hl₂
        injection hd with he
        rw [he]
  | ConditionNode.or cs, _, _, h₁, h₂ => by
    cases h₁ with
    | orOk _ bs₁ hl₁ =>
      cases h₂ with
      | orOk _ bs₂ hl₂ =>
        have hd := evalListR_det reg p cs _ _ hl₁ hl₂
        injection hd with hb
        rw [hb]
      | orErr _ e₂ hl₂ =>
        exact Except.noConfusion (evalListR_det reg p cs _ _ hl₁ hl₂)
    | orErr _ e₁ hl₁ =>
      cases h₂ with
      | orOk _ bs₂ hl₂ =>
        exact Except.noConfusion (evalListR_det reg p cs _ _ hl₁ hl₂)
      | orErr _ e₂ hl₂ =>
        have hd := evalListR_det reg p cs _ _ hl₁ hl₂
        injection hd with he
        rw [he]
  | ConditionNode.not c, _, _, h₁, h₂ => by
    cases h₁ with
    | notOk _ b₁ hc₁ =>
      cases h₂ with
      | notOk _ b₂ hc₂ =>
        have hd := evalR_det reg p c _ _ hc₁ hc₂
        injection hd with hb
        rw [hb]
      | notErr _ e₂ hc₂ =>
        exact Except.noConfusion (evalR_det reg p c _ _ hc₁ hc₂)
    | notErr _ e₁ hc₁ =>
      cases h₂ with
      | notOk _ b₂ hc₂ =>
        exact Except.noConfusion (evalR_det reg p c _ _ hc₁ hc₂)
      | notErr _ e₂ hc₂ =>
        have hd := evalR_det reg p c _ _ hc₁ hc₂
        injection hd with he
        rw [he]

/-- The list evaluation relation is deterministic. -/
theorem evalListR_det (reg : Registry) (p : Profile) :
    ∀ (cs : List ConditionNode) (r₁ r₂ : Except ConfigError (List Bool)),
      EvalListR reg p cs r₁ → EvalListR reg p cs r₂ → r₁ = r₂
  | [], _, _, h₁, h₂ => by
    cases h₁
    cases h₂
    rfl
  | c :: cs, _, _, h₁, h₂ => by
    cases h₁ with
    | consOk _ _ b₁ bs₁ hc₁ hcs₁ =>
      cases h₂ with
      | consOk _ _ b₂ bs₂ hc₂ hcs₂ =>
        have hhd := evalR_det reg p c _ _ hc₁ hc₂
        have htl := evalListR_det reg p cs _ _ hcs₁ hcs₂
        injection hhd with hb
        injection htl with hbs
        rw [hb, hbs]
      | consErrHead _ _ e₂ hc₂ =>
        exact Except.noConfusion (evalR_det reg p c _ _ hc₁ hc₂)
      | consErrTail _ _ b₂ e₂ hc₂ hcs₂ =>
        exact Except.noConfusion (evalListR_det reg p cs _ _ hcs₁ hcs₂)
    | consErrHead _ _ e₁ hc₁ =>
      cases h₂ with
      | consOk _ _ b₂ bs₂ hc₂ hcs₂ =>
        exact Except.noConfusion (evalR_det reg p c _ _ hc₂ hc₁)
      | consErrHead _ _ e₂ hc₂ =>
        have hd := evalR_det reg p c _ _ hc₁ hc₂
        injection hd with he
        rw [he]
      | consErrTail _ _ b₂ e₂ hc₂ hcs₂ =>
        exact Except.noConfusion (evalR_det reg p c _ _ hc₂ hc₁)
    | consErrTail _ _ b₁ e₁ hc₁ hcs₁ =>
      cases h₂ with
      | consOk _ _ b₂ bs₂ hc₂ hcs₂ =>
        exact Except.noConfusion (evalListR_det reg p cs _ _ hcs₁ hcs₂)
      | consErrHead _ _ e₂ hc₂ =>
        exact Except.noConfusion (evalR_det reg p c _ _ hc₁ hc₂)
      | consErrTail _ _ b₂ e₂ hc₂ hcs₂ =>
        have hd := evalListR_det reg p cs _ _ hcs₁ hcs₂
        injection hd with he
        rw [he]

end

/-- C6: evaluation of a condition tree against a profile is deterministic:
any two evaluations of the same tree and profile pair, as witnessed by the
evaluation relation, coincide with the evaluation function's result and
with each other; evaluation reads nothing but its arguments. -/
theorem evaluate_deterministic (reg : Registry) (p : Profile)
    (t : ConditionNode) (r₁ r₂ : Except ConfigError Bool)
    (h₁ : EvalR reg p t r₁) (h₂ : EvalR reg p t r₂) :
    r₁ = evaluate reg p t ∧ r₂ = evaluate reg p t ∧ r₁ = r₂ :=
  ⟨evalR_det reg p t r₁ _ h₁ (evaluate_evalR reg p t),
    evalR_det reg p t r₂ _ h₂ (evaluate_evalR reg p t),
    evalR_det reg p t r₁ r₂ h₁ h₂⟩

/-- C6 witness: two derivations for the bogus leaf both yield the same
recorded configuration error, matching the evaluation function. -/
theorem evaluate_deterministic_witness :
    EvalR defaultRegistry sampleProfile bogusTree
      (Except.error (ConfigError.unregistered "bogus")) ∧
    (Except.error (ConfigError.unregistered "bogus") =
        evaluate defaultRegistry sampleProfile bogusTree ∧
      Except.error (ConfigError.unregistered "bogus") =
        evaluate defaultRegistry sampleProfile bogusTree ∧
      (Except.error (ConfigError.unregistered "bogus") :
          Except ConfigError Bool) =
        Except.error (ConfigError.unregistered "bogus")) :=
  ⟨EvalR.leafErr "bogus" { subject := "logins", threshold := 100 } rfl,
    evaluate_deterministic defaultRegistry sampleProfile bogusTree _ _
      (EvalR.leafErr "bogus" { subject := "logins", threshold := 100 } rfl)
      (EvalR.leafErr "bogus" { subject := "logins", threshold := 100 } rfl)⟩

/-- C7: deleting a role emits a configuration-change trigger for the space;
that trigger moves an idle coordinator to running and starts exactly one
pass, and in that pass every member currently holding the deleted role's
marker has the marker scheduled for removal, for any profile (so even when
the member's profile is unchanged). -/
theorem deleteRole_schedules_revocation (reg : Registry) (s : ServerDetails)
    (r : Role) (p : Profile) (current : Finset String) (hr : r ∈ s.roles)
    (hcur : r.snowflake ∈ current) :
    (deleteRole s r.id).2.2 = CoordEvent.trigger ∧
    ((coordStep CoordState.idle (deleteRole s r.id).2.2).1).inFlight = 1 ∧
    (coordStep CoordState.idle (deleteRole s r.id).2.2).2 = 1 ∧
    r.snowflake ∈ passRemoveSet reg (deleteRole s r.id).1
      (deleteRole s r.id).2.1 p current := by
  refine ⟨rfl, rfl, rfl, ?_⟩
  apply Finset.mem_union_right
  rw [Finset.mem_inter]
  refine ⟨?_, hcur⟩
  simp only [deleteRole, List.mem_toFinset, List.mem_map, List.mem_filter]
  exact ⟨r, ⟨hr, by simp⟩, rfl⟩

/-- C7 witness: deleting the Veteran sample role triggers a refresh and
schedules removal of its marker mA from a member holding it. -/
theorem deleteRole_schedules_revocation_witness :
    sampleRoleA ∈ sampleServer.roles ∧
    sampleRoleA.snowflake ∈ ({"mA"} : Finset String) ∧
    ((deleteRole sampleServer sampleRoleA.id).2.2 = CoordEvent.trigger ∧
      ((coordStep CoordState.idle
        (deleteRole sampleServer sampleRoleA.id).2.2).1).inFlight = 1 ∧
      (coordStep CoordState.idle
        (deleteRole sampleServer sampleRoleA.id).2.2).2 = 1 ∧
      sampleRoleA.snowflake ∈ passRemoveSet defaultRegistry
        (deleteRole sampleServer sampleRoleA.id).1
        (deleteRole sampleServer sampleRoleA.id).2.1 sampleProfile
        {"mA"}) :=
  ⟨List.mem_cons_self _ _, by decide,
    deleteRole_schedules_revocation defaultRegistry sampleServer sampleRoleA
      sampleProfile {"mA"} (List.mem_cons_self _ _) (by decide)⟩

end Orianna
